import Mathlib

/-!
Verification of the go-request-client repository: a shallow embedding of the
middleware/handler-stack pipeline, the Promise primitive, the retry middleware,
the concurrent fan-out helpers and the client's option normalisation, with
theorems settling the specification's claims about them.

Go conventions mapped into Lean: a `*T` pointer value that may be nil becomes
`Option T`; the Go pair `(*Response, error)` becomes `Option Resp × Option Err`
(`none` is the nil pointer / nil error); mutation of a struct field becomes
explicit state passing; a goroutine interleaving becomes an explicit schedule
or a step relation.
-/

namespace GoRequestClient

/-- Go's `(*Response, error)` return pair: `(none, none)`, `(some r, none)`,
`(none, some e)` and `(some r, some e)` are all representable, as in Go. -/
abbrev GoResult (Resp Err : Type) := Option Resp × Option Err

/-! ## Handler stack (`middleware.go`, `HandlerStack`)

A `Handler` in Go is `func(*http.Request) (*Response, error)`; handlers built
by the stack close over the stack's mutable `position` field and over any
middleware-local mutable state (for example a trace captured by a test
middleware), so the embedded handler threads a state `Nat × σ`: the `Nat`
component is `hs.position`, the `σ` component is middleware-observable state. -/

/-- `Handler = func(*http.Request) (*Response, error)`, with the shared mutable
state (`position`, middleware-local state) threaded explicitly. -/
abbrev Handler (Req Resp Err σ : Type) :=
  Req → Nat × σ → GoResult Resp Err × (Nat × σ)

/-- `Middleware func(next Handler) Handler`. -/
abbrev Middleware (Req Resp Err σ : Type) :=
  Handler Req Resp Err σ → Handler Req Resp Err σ

/-- The `HandlerStack` struct: terminal handler, middleware list, and the
`position` cursor field. -/
structure HandlerStack (Req Resp Err σ : Type) where
  handler : Handler Req Resp Err σ
  stack : List (Middleware Req Resp Err σ)
  position : Nat

/-- `NewHandlerStack(handler)`: empty middleware list, position 0. -/
def NewHandlerStack (handler : Handler Req Resp Err σ) :
    HandlerStack Req Resp Err σ :=
  { handler := handler, stack := [], position := 0 }

/-- `Push` appends a middleware to the stack. -/
def HandlerStack.Push (hs : HandlerStack Req Resp Err σ)
    (middleware : Middleware Req Resp Err σ) : HandlerStack Req Resp Err σ :=
  { hs with stack := hs.stack ++ [middleware] }

/-- `HandlerStack.Next`, fuel-indexed.  The Go method reads `hs.position`; if
it is past the end of the stack it calls the terminal handler, otherwise it
takes `hs.stack[hs.position]`, increments `hs.position`, and invokes the
middleware with `hs.Next` as the next handler.  The self-reference `hs.Next`
passed into an arbitrary middleware is represented by the recursive call at
one unit less fuel; any execution whose nesting of `Next` calls is bounded by
the fuel (in particular every run whose middlewares leave the cursor alone,
since the cursor strictly grows across nested calls) computes exactly the Go
result.  Exhausted fuel falls back to the terminal handler; the theorems below
always supply sufficient fuel, so this branch is never observed. -/
def NextAux (stack : List (Middleware Req Resp Err σ))
    (handler : Handler Req Resp Err σ) : Nat → Handler Req Resp Err σ
  | 0 => handler
  | fuel + 1 => fun req s =>
      if h : s.1 < stack.length then
        (stack.get ⟨s.1, h⟩) (NextAux stack handler fuel) req (s.1 + 1, s.2)
      else
        handler req s

/-- One execution through `hs.Next(req)`: runs from the stack's current
`position`, returning the Go result together with the updated stack (the
struct's `position` field after the run) and the middleware-observable state. -/
def HandlerStack.Next (hs : HandlerStack Req Resp Err σ) (req : Req) (u : σ) :
    GoResult Resp Err × (HandlerStack Req Resp Err σ × σ) :=
  let out := NextAux hs.stack hs.handler (hs.stack.length + 1) req (hs.position, u)
  (out.1, ({ hs with position := out.2.1 }, out.2.2))

/-- `Reset` sets the position cursor back to zero. -/
def HandlerStack.Reset (hs : HandlerStack Req Resp Err σ) :
    HandlerStack Req Resp Err σ :=
  { hs with position := 0 }

/-! Instrumentation used to observe call order: a middleware that records
`name before`, delegates once, and records `name after`, over trace state
`σ = List String`; and a terminal handler that records `"T"`. -/

/-- A tracing middleware: appends `name ++ ":before"` to the trace, calls the
next handler once, then appends `name ++ ":after"`. -/
def traceMw (name : String) : Middleware Req Resp Err (List String) :=
  fun next req s =>
    let s1 : Nat × List String := (s.1, s.2 ++ [name ++ ":before"])
    let out := next req s1
    (out.1, (out.2.1, out.2.2 ++ [name ++ ":after"]))

/-- A terminal handler that records `"T"` in the trace and returns a fixed
successful response. -/
def traceTerminal (resp : Resp) : Handler Req Resp Err (List String) :=
  fun _ s => ((some resp, none), (s.1, s.2 ++ ["T"]))

/-- The two-middleware traced stack of the ordering claims: middlewares named
`a` and `b` pushed in that order around the tracing terminal handler. -/
def tracedStack (a b : String) (resp : Resp) :
    HandlerStack Req Resp Err (List String) :=
  ((NewHandlerStack (traceTerminal resp)).Push (traceMw a)).Push (traceMw b)

/-! ## Promise (`middleware.go`, `Promise`)

The Go struct holds `response *Response`, `err error`, a `done` channel and a
`sync.Once`.  Closing `done` and consuming the `Once` coincide (every
`once.Do` body closes `done`), so both are modelled by one `settled` flag.
`Resolve` takes `Option Resp` because the Go argument is a nil-able pointer;
`Reject` takes `Err`, modelling rejection with a non-nil Go error.  Concurrent
`Resolve`/`Reject` calls are serialised by the `Once`'s mutual exclusion, so
an arbitrary interleaving of calls is an arbitrary sequential list of
operations applied in order. -/

/-- The `Promise` struct: value, error, and whether it has settled. -/
structure Promise (Resp Err : Type) where
  response : Option Resp
  err : Option Err
  settled : Bool
  deriving DecidableEq

/-- `NewPromise()`: pending, no value, no error. -/
def NewPromise : Promise Resp Err :=
  { response := none, err := none, settled := false }

/-- `Resolve`: inside `once.Do`, stores the response and closes `done`; a
no-op on an already-settled promise. -/
def Promise.Resolve (p : Promise Resp Err) (response : Option Resp) :
    Promise Resp Err :=
  if p.settled then p else { p with response := response, settled := true }

/-- `Reject`: inside `once.Do`, stores the error and closes `done`; a no-op on
an already-settled promise. -/
def Promise.Reject (p : Promise Resp Err) (e : Err) : Promise Resp Err :=
  if p.settled then p else { p with err := some e, settled := true }

/-- `Wait`: blocks until `done` is closed, then returns `(p.response, p.err)`.
`none` models a call that is still blocked because the promise is pending. -/
def Promise.Wait (p : Promise Resp Err) : Option (Option Resp × Option Err) :=
  if p.settled then some (p.response, p.err) else none

/-- The three abstract promise states of the specification. -/
inductive PromiseState (Resp Err : Type)
  | pending
  | fulfilled (response : Option Resp)
  | rejected (e : Err)
  deriving DecidableEq

/-- Classify a promise: pending until settled; once settled, rejected when an
error was stored and fulfilled otherwise. -/
def Promise.state (p : Promise Resp Err) : PromiseState Resp Err :=
  if p.settled then
    match p.err with
    | some e => PromiseState.rejected e
    | none => PromiseState.fulfilled p.response
  else PromiseState.pending

/-- One settlement call made by some caller: `Resolve(r)` or `Reject(e)`. -/
inductive PromiseOp (Resp Err : Type)
  | resolve (response : Option Resp)
  | reject (e : Err)
  deriving DecidableEq

/-- Apply one settlement call to a promise. -/
def PromiseOp.apply (op : PromiseOp Resp Err) (p : Promise Resp Err) :
    Promise Resp Err :=
  match op with
  | .resolve r => p.Resolve r
  | .reject e => p.Reject e

/-- Apply a serialised interleaving of settlement calls in order. -/
def applyOps (ops : List (PromiseOp Resp Err)) (p : Promise Resp Err) :
    Promise Resp Err :=
  ops.foldl (fun q op => op.apply q) p

/-- `Then`: the goroutine waits on the source, rejects the new promise with
the source's error without consulting `fn`, and otherwise applies `fn` and
settles the new promise with `fn`'s outcome.  The value is the derived
promise's eventual settled state once the goroutine has run; a pending source
leaves the goroutine blocked in `Wait`, so the derived promise is still the
fresh pending one. -/
def Promise.Then (p : Promise Resp Err)
    (fn : Option Resp → Option Resp × Option Err) : Promise Resp Err :=
  match p.Wait with
  | none => NewPromise
  | some (resp, err) =>
    match err with
    | some e => NewPromise.Reject e
    | none =>
      match fn resp with
      | (_, some newErr) => NewPromise.Reject newErr
      | (newResp, none) => NewPromise.Resolve newResp

/-- `Catch`: the goroutine waits on the source, rejects the new promise with
the transformed error when the source rejected, and resolves it with the
source's response untouched otherwise. -/
def Promise.Catch (p : Promise Resp Err) (fn : Err → Err) : Promise Resp Err :=
  match p.Wait with
  | none => NewPromise
  | some (resp, err) =>
    match err with
    | some e => NewPromise.Reject (fn e)
    | none => NewPromise.Resolve resp

/-! ## Retry middleware (`middleware.go`, `RetryMiddleware`)

The handler built by `RetryMiddleware(maxRetries, backoff)` loops `attempt`
from 0 to `maxRetries` inclusive: it calls `next(req)`; on success it returns
the response; on failure it records the error as `lastErr` and, while
`attempt < maxRetries`, computes `backoff.Delay(attempt)` and runs a `select`
between the request context's done channel and the elapsed delay — returning
`req.Context().Err()` if the context is cancelled during the delay, otherwise
continuing with the next attempt; after the loop it returns `lastErr`.

Embedding choices: the inner handler threads explicit state `σ` (its closure
state, e.g. an invocation counter); `done attempt` tells whether the request
context is observed cancelled during the inter-attempt delay that follows
attempt number `attempt`, and `ctxErr` is `req.Context().Err()` then;
`backoffDelay` mirrors `backoff.Delay`, whose value only affects real time,
not results. -/

/-- The retry loop, by recursion on the number of remaining loop iterations
(`maxRetries + 1 - attempt` in Go). -/
def retryLoop (next : Req → σ → GoResult Resp Err × σ) (done : Nat → Bool)
    (ctxErr : Err) (backoffDelay : Nat → Nat) (req : Req) :
    Nat → Nat → Option Err → σ → GoResult Resp Err × σ
  | 0, _, lastErr, s => ((none, lastErr), s)
  | remaining + 1, attempt, _, s =>
      match next req s with
      | ((resp, none), s1) => ((resp, none), s1)
      | ((_, some e), s1) =>
          if 0 < remaining then
            let _ := backoffDelay attempt
            if done attempt then ((none, some ctxErr), s1)
            else
              retryLoop next done ctxErr backoffDelay req remaining
                (attempt + 1) (some e) s1
          else
            retryLoop next done ctxErr backoffDelay req remaining
              (attempt + 1) (some e) s1

/-- `RetryMiddleware(maxRetries, backoff)` applied to a `next` handler: run
the loop from attempt 0 with `maxRetries + 1` iterations available and no
error recorded yet. -/
def RetryMiddleware (maxRetries : Nat) (backoffDelay : Nat → Nat)
    (done : Nat → Bool) (ctxErr : Err)
    (next : Req → σ → GoResult Resp Err × σ) :
    Req → σ → GoResult Resp Err × σ :=
  fun req s =>
    retryLoop next done ctxErr backoffDelay req (maxRetries + 1) 0 none s

/-- The canonical always-failing inner handler over closure state `σ`: every
deterministic handler that fails on each invocation is of this form, with
`errOf s` its error and `step s` its state update at state `s`. -/
def alwaysFails (errOf : σ → Err) (step : σ → σ) :
    Req → σ → GoResult Resp Err × σ :=
  fun _ s => ((none, some (errOf s)), step s)

/-! ## Async orchestrator (`middleware.go`, `AsyncClient.SendConcurrent` and
`SendConcurrentWithLimit`)

`ac.Request(method, path, options)` — the whole synchronous execution path —
is the opaque collaborator `exec`, a function of the request descriptor.  Each
spawned goroutine writes exactly its own slot `results[index]`; goroutines
interleave arbitrarily, so an execution of `SendConcurrent` is the sequence of
slot writes in some completion order: a list of indices, each index of the
request list occurring exactly once. -/

/-- The `ConcurrentRequest` descriptor struct. -/
structure ConcurrentRequest (Opt : Type) where
  Method : String
  Path : String
  Options : Option Opt
  deriving DecidableEq

/-- The `ConcurrentResponse` result struct. -/
structure ConcurrentResponse (Resp Err : Type) where
  Index : Nat
  Response : Option Resp
  Error : Option Err
  deriving DecidableEq

/-- The Go zero value of `ConcurrentResponse`, filling the freshly `make`d
results slice. -/
def zeroConcurrentResponse : ConcurrentResponse Resp Err :=
  { Index := 0, Response := none, Error := none }

/-- The value one goroutine stores in its slot: `resp, err :=
ac.Request(method, path, options)` packed with the slot's index. -/
def concurrentResult (exec : ConcurrentRequest Opt → GoResult Resp Err)
    (index : Nat) (req : ConcurrentRequest Opt) :
    ConcurrentResponse Resp Err :=
  { Index := index, Response := (exec req).1, Error := (exec req).2 }

/-- The completed goroutine for index `i` writes `results[i]`; an index with
no corresponding request writes nothing (no such goroutine is spawned). -/
def writeSlot (exec : ConcurrentRequest Opt → GoResult Resp Err)
    (requests : List (ConcurrentRequest Opt))
    (results : List (ConcurrentResponse Resp Err)) (i : Nat) :
    List (ConcurrentResponse Resp Err) :=
  match requests[i]? with
  | some req => results.set i (concurrentResult exec i req)
  | none => results

/-- `SendConcurrent` under an explicit completion schedule: starting from the
zero-filled results slice of length `len(requests)`, the goroutines complete
and write their slots in the order given. -/
def SendConcurrentSched (exec : ConcurrentRequest Opt → GoResult Resp Err)
    (requests : List (ConcurrentRequest Opt)) (order : List Nat) :
    List (ConcurrentResponse Resp Err) :=
  order.foldl (writeSlot exec requests)
    (List.replicate requests.length zeroConcurrentResponse)

/-- `SendConcurrent(requests)`: every spawned goroutine completes exactly
once (`wg.Wait` returns only then); the reference schedule is index order. -/
def SendConcurrent (exec : ConcurrentRequest Opt → GoResult Resp Err)
    (requests : List (ConcurrentRequest Opt)) :
    List (ConcurrentResponse Resp Err) :=
  SendConcurrentSched exec requests (List.range requests.length)

/-! ### `SendConcurrentWithLimit`

The bounded variant guards each goroutine's work with a buffered channel of
capacity `limit`: `semaphore <- struct{}{}` blocks until the channel holds
fewer than `limit` items, and `defer func() { <-semaphore }()` releases the
slot when the goroutine returns, whether `ac.Request` succeeded or failed
(the result is written to `results[index]` before the deferred release runs;
collapsing the write and the release into one step changes no observable
claim).  A goroutine is `idle` while blocked on acquisition, `running` while
holding a semaphore slot, and `done` after writing its slot and releasing.
The channel occupancy is exactly the number of `running` workers. -/

/-- Status of one spawned goroutine of `SendConcurrentWithLimit`. -/
inductive WorkerStatus
  | idle
  | running
  | done
  deriving DecidableEq

/-- A global state of `SendConcurrentWithLimit`: per-goroutine status and the
shared results slice. -/
structure LimitState (Resp Err : Type) where
  status : List WorkerStatus
  results : List (ConcurrentResponse Resp Err)
  deriving DecidableEq

/-- Semaphore occupancy: the number of workers currently holding a slot. -/
def countRunning (status : List WorkerStatus) : Nat :=
  status.count WorkerStatus.running

/-- The state just after the loop spawned all goroutines: everyone blocked on
the semaphore, results slice zero-filled. -/
def initLimitState (Resp Err : Type) (n : Nat) : LimitState Resp Err :=
  { status := List.replicate n WorkerStatus.idle,
    results := List.replicate n zeroConcurrentResponse }

/-- One scheduler step of `SendConcurrentWithLimit`: either a blocked worker
acquires a semaphore slot — possible only while the occupancy is below
`limit` — or a running worker completes, writing its own result slot and
releasing its semaphore slot (via the deferred receive) regardless of whether
its request returned a response or an error. -/
inductive LimitStep (exec : ConcurrentRequest Opt → GoResult Resp Err)
    (requests : List (ConcurrentRequest Opt)) (limit : Nat) :
    LimitState Resp Err → LimitState Resp Err → Prop
  | acquire (s : LimitState Resp Err) (i : Nat)
      (hidle : s.status[i]? = some WorkerStatus.idle)
      (hcap : countRunning s.status < limit) :
      LimitStep exec requests limit s
        { s with status := s.status.set i WorkerStatus.running }
  | finish (s : LimitState Resp Err) (i : Nat)
      (hrun : s.status[i]? = some WorkerStatus.running)
      (req : ConcurrentRequest Opt) (hreq : requests[i]? = some req) :
      LimitStep exec requests limit s
        { status := s.status.set i WorkerStatus.done,
          results := s.results.set i (concurrentResult exec i req) }

/-- The states an execution of `SendConcurrentWithLimit(requests, limit)` can
reach from the fully-spawned initial state. -/
def LimitReachable (exec : ConcurrentRequest Opt → GoResult Resp Err)
    (requests : List (ConcurrentRequest Opt)) (limit : Nat)
    (s : LimitState Resp Err) : Prop :=
  Relation.ReflTransGen (LimitStep exec requests limit)
    (initLimitState Resp Err requests.length) s

/-- The inductive invariant of the bounded fan-out: status and results keep
their lengths, the semaphore occupancy never exceeds `limit`, and every
completed worker's slot holds the outcome of its own request. -/
def LimitInv (exec : ConcurrentRequest Opt → GoResult Resp Err)
    (requests : List (ConcurrentRequest Opt)) (limit : Nat)
    (s : LimitState Resp Err) : Prop :=
  s.status.length = requests.length ∧
  s.results.length = requests.length ∧
  countRunning s.status ≤ limit ∧
  ∀ i, s.status[i]? = some WorkerStatus.done →
    s.results[i]? = (requests[i]?).map (concurrentResult exec i)

/-- A concrete two-request batch for exercising the fan-out theorems. -/
def sampleRequests : List (ConcurrentRequest Unit) :=
  [⟨"GET", "/a", none⟩, ⟨"GET", "/b", none⟩]

/-- A concrete execution function for the sample batch: succeeds with the
request's path as the response. -/
def sampleExec : ConcurrentRequest Unit → GoResult String String :=
  fun req => (some req.Path, none)

/-! ## Client request pipeline (`client.go`, `Client.Request`)

`Client.Request` builds the URL, prepares the body, creates the outgoing
request, attaches headers, auth and cookies, and hands it to the underlying
HTTP transport.  External collaborators appear as explicit functions: `send`
is `c.httpClient.Do` followed by buffering the response body (its error is
either the transport's or `io.ReadAll`'s); `marshal` is `json.Marshal`;
`multipartToReader` is `MultipartData.ToReader` (returning a body stream and
a content type, or an error); `net/url`'s parse-and-re-encode of query
parameters is recorded structurally as the list of parameters set on the
URL.  Byte streams are `String`s.  Go map fields are association lists; map
iteration order is irrelevant because `Header.Set` and `Query().Set` are
keyed and map keys are unique. -/

/-- The `Auth` credentials struct. -/
structure Auth where
  Username : String
  Password : String
  deriving DecidableEq

/-- The `MultipartData` container (`multipart.go`): form fields and files
(field name, file name, content). -/
structure MultipartData where
  Fields : List (String × String)
  Files : List (String × String × String)
  deriving DecidableEq

/-- What `prepareBody` hands to the request as its body. -/
inductive BodySpec
  | empty
  | raw (content : String)
  | jsonBody (data : String)
  | form (fields : List (String × String))
  | multipartBody (content : String)
  deriving DecidableEq

/-- The `RequestOptions` struct; `Json` is the type of the `JSON` payload
(`interface` in Go).  The Go zero value `&RequestOptions{}` has nil maps and
pointers, zero timeout and false `AllowRedirects`. -/
structure RequestOptions (Json : Type) where
  Headers : List (String × String)
  QueryParams : List (String × String)
  FormData : List (String × String)
  JSON : Option Json
  Body : Option String
  Timeout : Nat
  Auth : Option Auth
  Cookies : List String
  AllowRedirects : Bool
  Multipart : Option MultipartData
  deriving DecidableEq

/-- The Go zero value `RequestOptions{}`. -/
def emptyRequestOptions (Json : Type) : RequestOptions Json :=
  { Headers := [], QueryParams := [], FormData := [], JSON := none,
    Body := none, Timeout := 0, Auth := none, Cookies := [],
    AllowRedirects := false, Multipart := none }

/-- The `Client` struct's configuration (the embedded `http.Client` is the
transport collaborator `send`). -/
structure Client where
  baseURL : String
  headers : List (String × String)
  timeout : Nat
  auth : Option Auth
  deriving DecidableEq

/-- `buildURL`: the path alone when no base URL is set, otherwise the base
URL stripped of trailing slashes, a slash, and the path stripped of leading
slashes. -/
def buildURL (c : Client) (path : String) : String :=
  if c.baseURL = "" then path
  else c.baseURL.dropRightWhile (· == '/') ++ "/" ++ path.dropWhile (· == '/')

/-- `http.Header.Set` / `url.Values.Set`: keyed replacement. -/
def setHeader (hs : List (String × String)) (k v : String) :
    List (String × String) :=
  if hs.any (fun p => p.1 == k) then
    hs.map (fun p => if p.1 == k then (k, v) else p)
  else hs ++ [(k, v)]

/-- `setHeaders`: client default headers first, then the per-request custom
headers (overriding by key), then the content type when non-empty. -/
def setHeaders (c : Client) (custom : List (String × String))
    (contentType : String) : List (String × String) :=
  let h1 := c.headers.foldl (fun acc p => setHeader acc p.1 p.2) []
  let h2 := custom.foldl (fun acc p => setHeader acc p.1 p.2) h1
  if contentType = "" then h2 else setHeader h2 "Content-Type" contentType

/-- `prepareBody`: raw `Body` reader first, then `JSON` (marshalled, may
fail), then non-empty `FormData`, then `Multipart` (via `ToReader`, may
fail), otherwise no body; paired with the content type it implies. -/
def prepareBody (Json Err : Type) (marshal : Json → Except Err String)
    (multipartToReader : MultipartData → Except Err (String × String))
    (options : RequestOptions Json) : Except Err (BodySpec × String) :=
  match options.Body with
  | some content => Except.ok (BodySpec.raw content, "")
  | none =>
    match options.JSON with
    | some payload =>
        match marshal payload with
        | Except.error e => Except.error e
        | Except.ok data =>
            Except.ok (BodySpec.jsonBody data, "application/json")
    | none =>
      if 0 < options.FormData.length then
        Except.ok (BodySpec.form options.FormData,
          "application/x-www-form-urlencoded")
      else
        match options.Multipart with
        | some md =>
            match multipartToReader md with
            | Except.error e => Except.error e
            | Except.ok (content, contentType) =>
                Except.ok (BodySpec.multipartBody content, contentType)
        | none => Except.ok (BodySpec.empty, "")

/-- The fully-prepared outgoing request handed to the transport. -/
structure OutgoingRequest where
  method : String
  url : String
  queryParams : List (String × String)
  body : BodySpec
  headers : List (String × String)
  basicAuth : Option Auth
  cookies : List String
  deriving DecidableEq

/-- `Client.Request`: replaces a nil `options` pointer with the zero value
before any field access, builds the URL, applies query parameters when any
are present, prepares the body (failures surface before any transport call),
sets headers, selects per-request auth over client auth, attaches cookies,
and sends. -/
def Client.Request {Json Resp Err : Type} (c : Client)
    (marshal : Json → Except Err String)
    (multipartToReader : MultipartData → Except Err (String × String))
    (send : OutgoingRequest → GoResult Resp Err)
    (method path : String) (options : Option (RequestOptions Json)) :
    GoResult Resp Err :=
  let options := options.getD (emptyRequestOptions Json)
  let requestURL := buildURL c path
  let appliedParams :=
    if 0 < options.QueryParams.length then options.QueryParams else []
  match prepareBody Json Err marshal multipartToReader options with
  | Except.error e => (none, some e)
  | Except.ok (body, contentType) =>
      send
        { method := method
          url := requestURL
          queryParams := appliedParams
          body := body
          headers := setHeaders c options.Headers contentType
          basicAuth :=
            match options.Auth with
            | some a => some a
            | none => c.auth
          cookies := options.Cookies }

/-- `Client.Get`. -/
def Client.Get {Json Resp Err : Type} (c : Client)
    (marshal : Json → Except Err String)
    (multipartToReader : MultipartData → Except Err (String × String))
    (send : OutgoingRequest → GoResult Resp Err)
    (path : String) (options : Option (RequestOptions Json)) :
    GoResult Resp Err :=
  c.Request marshal multipartToReader send "GET" path options

/-- `Client.Post`. -/
def Client.Post {Json Resp Err : Type} (c : Client)
    (marshal : Json → Except Err String)
    (multipartToReader : MultipartData → Except Err (String × String))
    (send : OutgoingRequest → GoResult Resp Err)
    (path : String) (options : Option (RequestOptions Json)) :
    GoResult Resp Err :=
  c.Request marshal multipartToReader send "POST" path options

/-- `Client.Put`. -/
def Client.Put {Json Resp Err : Type} (c : Client)
    (marshal : Json → Except Err String)
    (multipartToReader : MultipartData → Except Err (String × String))
    (send : OutgoingRequest → GoResult Resp Err)
    (path : String) (options : Option (RequestOptions Json)) :
    GoResult Resp Err :=
  c.Request marshal multipartToReader send "PUT" path options

/-- `Client.Delete`. -/
def Client.Delete {Json Resp Err : Type} (c : Client)
    (marshal : Json → Except Err String)
    (multipartToReader : MultipartData → Except Err (String × String))
    (send : OutgoingRequest → GoResult Resp Err)
    (path : String) (options : Option (RequestOptions Json)) :
    GoResult Resp Err :=
  c.Request marshal multipartToReader send "DELETE" path options

/-- `Client.Patch`. -/
def Client.Patch {Json Resp Err : Type} (c : Client)
    (marshal : Json → Except Err String)
    (multipartToReader : MultipartData → Except Err (String × String))
    (send : OutgoingRequest → GoResult Resp Err)
    (path : String) (options : Option (RequestOptions Json)) :
    GoResult Resp Err :=
  c.Request marshal multipartToReader send "PATCH" path options

/-! ## Theorems -/

/-- Settlement calls on an already-settled promise leave it unchanged. -/
theorem PromiseOp.apply_settled (op : PromiseOp Resp Err)
    (p : Promise Resp Err) (h : p.settled = true) : op.apply p = p := by
  cases op <;> simp [PromiseOp.apply, Promise.Resolve, Promise.Reject, h]

/-- A serialised list of settlement calls on an already-settled promise
leaves it unchanged. -/
theorem applyOps_settled (ops : List (PromiseOp Resp Err))
    (p : Promise Resp Err) (h : p.settled = true) : applyOps ops p = p := by
  induction ops with
  | nil => rfl
  | cons o os ih =>
      show applyOps os (o.apply p) = p
      rw [PromiseOp.apply_settled o p h, ih]

/-- C3: for every handler stack with middlewares named `a` and `b` pushed in
that order around a terminal handler `T`, one execution through `Next` produces
the onion call sequence `a(before), b(before), T, b(after), a(after)` and
returns the terminal handler's successful response: the first pushed middleware
is the outermost wrapper, observing the request first and the response last. -/
theorem handlerStack_onion_order (Req Resp Err : Type) (a b : String)
    (req : Req) (resp : Resp) :
    ((tracedStack a b resp : HandlerStack Req Resp Err (List String)).Next
        req []).2.2 =
      [a ++ ":before", b ++ ":before", "T", b ++ ":after", a ++ ":after"] ∧
    ((tracedStack a b resp : HandlerStack Req Resp Err (List String)).Next
        req []).1 = (some resp, none) :=
  ⟨rfl, rfl⟩

/-- C1 counterexample: on a concrete stack with middlewares `A` and `B`, after
one full execution through `Next` the retained cursor is 2 (not 0), and a
second execution through `Next` on the same instance runs only the terminal
handler — it does not apply the full pushed middleware list. -/
theorem handlerStack_cursor_counterexample :
    (((tracedStack "A" "B" 7 : HandlerStack Unit Nat Unit (List String)).Next
        () []).2.1.position = 2 ∧ 2 ≠ 0) ∧
    ((((tracedStack "A" "B" 7 :
          HandlerStack Unit Nat Unit (List String)).Next
        () []).2.1.Next () []).2.2 = ["T"] ∧
      (["T"] : List String) ≠
        ["A:before", "B:before", "T", "B:after", "A:after"]) :=
  ⟨⟨rfl, by decide⟩, ⟨rfl, by decide⟩⟩

/-- C1 amended: `Next` does not reset the position cursor; the cursor is
retained across executions on the same instance, so once it has passed the end
of the stack an execution applies no middleware (the terminal handler runs
directly on the unchanged cursor and state).  Only an explicit `Reset` call
sets the cursor back to zero, and it changes nothing else, so an execution
after `Reset` coincides with an execution on a fresh cursor and applies the
full pushed middleware list again — as the traced two-middleware stack shows
after a first execution has consumed the cursor. -/
theorem handlerStack_cursor_retained_reset_restores
    (Req Resp Err σ : Type) (hs : HandlerStack Req Resp Err σ)
    (req : Req) (u : σ) (a b : String) (resp : Resp) :
    hs.Reset.position = 0 ∧
    hs.Reset.Next req u = HandlerStack.Next { hs with position := 0 } req u ∧
    (hs.stack.length ≤ hs.position →
      (hs.Next req u).1 = (hs.handler req (hs.position, u)).1 ∧
      (hs.Next req u).2.2 = (hs.handler req (hs.position, u)).2.2 ∧
      (hs.Next req u).2.1.position = (hs.handler req (hs.position, u)).2.1) ∧
    ((((tracedStack a b resp : HandlerStack Req Resp Err (List String)).Next
          req []).2.1.Reset.Next req []).2.2 =
        [a ++ ":before", b ++ ":before", "T", b ++ ":after", a ++ ":after"]) := by
  refine ⟨rfl, rfl, fun h => ?_, rfl⟩
  have hn : ¬ hs.position < hs.stack.length := Nat.not_lt.mpr h
  simp [HandlerStack.Next, NextAux, hn]

/-- Witness for the amended C1 theorem at a concrete stack whose cursor is
already past the end (empty stack, cursor 0), with the cursor-past-the-end
hypothesis discharged. -/
theorem handlerStack_cursor_retained_reset_restores_witness :
    (NewHandlerStack (traceTerminal 7 :
        Handler Unit Nat Unit (List String))).Reset.position = 0 ∧
    ((NewHandlerStack (traceTerminal 7 :
        Handler Unit Nat Unit (List String))).Next () []).1 =
      ((traceTerminal 7 : Handler Unit Nat Unit (List String)) ()
        (0, [])).1 := by
  have h := handlerStack_cursor_retained_reset_restores Unit Nat Unit
    (List String)
    (NewHandlerStack (traceTerminal 7 : Handler Unit Nat Unit (List String)))
    () [] "A" "B" 7
  exact ⟨h.1, (h.2.2.1 (by decide)).1⟩

/-- C2: a fresh promise is pending; for every serialised interleaving of
`Resolve`/`Reject` calls, the first call alone determines the promise — every
later call is a silent no-op — the promise is settled in exactly the terminal
state named by the first call (fulfilled for `Resolve`, rejected for
`Reject`), and `Wait`, a pure function of the settled promise, returns the
same terminal value-and-error pair to every caller, namely the pair stored by
the first call. -/
theorem promise_exactly_once (Resp Err : Type) (op : PromiseOp Resp Err)
    (rest : List (PromiseOp Resp Err)) :
    (NewPromise : Promise Resp Err).state = PromiseState.pending ∧
    applyOps (op :: rest) (NewPromise : Promise Resp Err) =
      op.apply NewPromise ∧
    (op.apply (NewPromise : Promise Resp Err)).settled = true ∧
    (match op with
     | .resolve r =>
        (op.apply (NewPromise : Promise Resp Err)).state =
          PromiseState.fulfilled r
     | .reject e =>
        (op.apply (NewPromise : Promise Resp Err)).state =
          PromiseState.rejected e) ∧
    (applyOps (op :: rest) (NewPromise : Promise Resp Err)).Wait =
      some ((op.apply NewPromise).response, (op.apply NewPromise).err) := by
  have hset : (op.apply (NewPromise : Promise Resp Err)).settled = true := by
    cases op <;> rfl
  have hfirst : applyOps (op :: rest) (NewPromise : Promise Resp Err) =
      op.apply NewPromise := by
    show applyOps rest (op.apply NewPromise) = op.apply NewPromise
    exact applyOps_settled rest _ hset
  refine ⟨rfl, hfirst, hset, ?_, ?_⟩
  · cases op <;> rfl
  · rw [hfirst]
    simp [Promise.Wait, hset]

/-- C6: `Then` on a source that settles fulfilled with response `r` settles
the derived promise with `fn`'s outcome — fulfilled with `fn`'s response when
`fn` returns no error, rejected with `fn`'s error otherwise; `Then` on a
source that settles rejected with error `e` rejects the derived promise with
the same `e`, and its result does not depend on `fn` at all — `fn` is never
invoked.  The model computes the derived promise's eventual state from the
source's settled state, so this holds whether the source settled before or
after the `Then` call. -/
theorem promise_then_contract (Resp Err : Type) (p : Promise Resp Err)
    (fn : Option Resp → Option Resp × Option Err) :
    (∀ r, p.state = PromiseState.fulfilled r →
      (p.Then fn).state =
        (match fn r with
         | (_, some e) => PromiseState.rejected e
         | (nr, none) => PromiseState.fulfilled nr)) ∧
    (∀ e, p.state = PromiseState.rejected e →
      (p.Then fn).state = PromiseState.rejected e ∧
      ∀ fn2, p.Then fn = p.Then fn2) := by
  obtain ⟨response, err, settled⟩ := p
  constructor
  · intro r hr
    cases settled with
    | false => simp [Promise.state] at hr
    | true =>
        cases err with
        | some e => simp [Promise.state] at hr
        | none =>
            have hresp : response = r := by
              simpa [Promise.state] using hr
            subst hresp
            show (Promise.Then ⟨response, none, true⟩ fn).state = _
            cases hfn : fn response with
            | mk nr ne =>
                cases ne <;>
                  simp [Promise.Then, Promise.Wait, hfn, Promise.Resolve,
                    Promise.Reject, NewPromise, Promise.state]
  · intro e he
    cases settled with
    | false => simp [Promise.state] at he
    | true =>
        cases err with
        | none => simp [Promise.state] at he
        | some e0 =>
            have he0 : e0 = e := by
              simpa [Promise.state] using he
            subst he0
            constructor
            · simp [Promise.Then, Promise.Wait, Promise.Reject, NewPromise,
                Promise.state]
            · intro fn2
              simp [Promise.Then, Promise.Wait]

/-- Witness for the `Then` contract: a promise resolved with response 5 then
continued with a function returning the doubled response and no error yields a
promise fulfilled with 10, and a promise rejected with "boom" then continued
yields a promise rejected with "boom". -/
theorem promise_then_contract_witness :
    ((((NewPromise : Promise Nat String).Resolve (some 5)).Then
        (fun r => (r.map (· * 2), none))).state =
      PromiseState.fulfilled (some 10)) ∧
    ((((NewPromise : Promise Nat String).Reject "boom").Then
        (fun r => (r.map (· * 2), none))).state =
      PromiseState.rejected "boom") := by
  constructor
  · exact (promise_then_contract Nat String
      (((NewPromise : Promise Nat String).Resolve (some 5)))
      (fun r => (r.map (· * 2), none))).1 (some 5) (by decide)
  · exact ((promise_then_contract Nat String
      (((NewPromise : Promise Nat String).Reject "boom"))
      (fun r => (r.map (· * 2), none))).2 "boom" (by decide)).1

/-- C7: `Catch` on a source that settles fulfilled passes the response through
untouched and its result does not depend on `fn` — `fn` is never invoked;
`Catch` on a source that settles rejected with error `e` rejects the derived
promise with the transformed error `fn e`. -/
theorem promise_catch_contract (Resp Err : Type) (p : Promise Resp Err)
    (fn : Err → Err) :
    (∀ r, p.state = PromiseState.fulfilled r →
      (p.Catch fn).state = PromiseState.fulfilled r ∧
      ∀ fn2, p.Catch fn = p.Catch fn2) ∧
    (∀ e, p.state = PromiseState.rejected e →
      (p.Catch fn).state = PromiseState.rejected (fn e)) := by
  obtain ⟨response, err, settled⟩ := p
  constructor
  · intro r hr
    cases settled with
    | false => simp [Promise.state] at hr
    | true =>
        cases err with
        | some e => simp [Promise.state] at hr
        | none =>
            have hresp : response = r := by
              simpa [Promise.state] using hr
            subst hresp
            constructor
            · simp [Promise.Catch, Promise.Wait, Promise.Resolve, NewPromise,
                Promise.state]
            · intro fn2
              simp [Promise.Catch, Promise.Wait]
  · intro e he
    cases settled with
    | false => simp [Promise.state] at he
    | true =>
        cases err with
        | none => simp [Promise.state] at he
        | some e0 =>
            have he0 : e0 = e := by
              simpa [Promise.state] using he
            subst he0
            simp [Promise.Catch, Promise.Wait, Promise.Reject, NewPromise,
              Promise.state]

/-- Witness for the `Catch` contract: a promise resolved with response 5 then
caught passes 5 through untouched, and a promise rejected with "boom" then
caught with a wrapping transform rejects with the transformed error. -/
theorem promise_catch_contract_witness :
    ((((NewPromise : Promise Nat String).Resolve (some 5)).Catch
        (fun e => "wrapped:" ++ e)).state =
      PromiseState.fulfilled (some 5)) ∧
    ((((NewPromise : Promise Nat String).Reject "boom").Catch
        (fun e => "wrapped:" ++ e)).state =
      PromiseState.rejected "wrapped:boom") := by
  constructor
  · exact ((promise_catch_contract Nat String
      (((NewPromise : Promise Nat String).Resolve (some 5)))
      (fun e => "wrapped:" ++ e)).1 (some 5) (by decide)).1
  · exact (promise_catch_contract Nat String
      (((NewPromise : Promise Nat String).Reject "boom"))
      (fun e => "wrapped:" ++ e)).2 "boom" (by decide)

/-- With an uncancelled context and an always-failing inner handler, the retry
loop with `r + 1` iterations left makes exactly `r + 1` further invocations
and returns the error of the last one. -/
theorem retryLoop_always_fails (Req Resp Err σ : Type) (errOf : σ → Err)
    (step : σ → σ) (ctxErr : Err) (backoffDelay : Nat → Nat) (req : Req)
    (r : Nat) :
    ∀ (attempt : Nat) (lastErr : Option Err) (s : σ),
    retryLoop (alwaysFails errOf step : Req → σ → GoResult Resp Err × σ)
        (fun _ => false) ctxErr backoffDelay req (r + 1) attempt lastErr s =
      ((none, some (errOf (step^[r] s))), step^[r + 1] s) := by
  induction r with
  | zero =>
      intro attempt lastErr s
      simp [retryLoop, alwaysFails]
  | succ r ih =>
      intro attempt lastErr s
      rw [retryLoop]
      simp only [alwaysFails, Nat.zero_lt_succ, if_true]
      rw [ih (attempt + 1) (some (errOf s)) (step s)]
      have h1 : step^[r + 1] (step s) = step^[r + 1 + 1] s :=
        (Function.iterate_succ_apply step (r + 1) s).symm
      have h2 : step^[r] (step s) = step^[r + 1] s :=
        (Function.iterate_succ_apply step r s).symm
      rw [h1, h2]
      simp

/-- C4: for every `maxRetries` N and every inner handler that fails on every
invocation, the handler produced by `RetryMiddleware` with an uncancelled
context invokes the inner handler exactly N + 1 times (the closure state is
stepped exactly N + 1 times) and returns the error produced by the last
invocation (the one run at state `step^[N] s0`); in particular, with N = 3
and a counting inner handler the counter ends at 4 and the error is the
fourth attempt's. -/
theorem retry_always_failing_attempts (Req Resp Err σ : Type) (N : Nat)
    (backoffDelay : Nat → Nat) (ctxErr : Err) (errOf : σ → Err)
    (step : σ → σ) (req : Req) (s0 : σ) (errOfN : Nat → Err) :
    (RetryMiddleware N backoffDelay (fun _ => false) ctxErr
        (alwaysFails errOf step : Req → σ → GoResult Resp Err × σ) req s0 =
      ((none, some (errOf (step^[N] s0))), step^[N + 1] s0)) ∧
    (RetryMiddleware 3 (fun _ => 0) (fun _ => false) ctxErr
        (alwaysFails errOfN (· + 1) : Req → Nat → GoResult Resp Err × Nat)
        req 0 =
      ((none, some (errOfN 3)), 4)) :=
  ⟨retryLoop_always_fails Req Resp Err σ errOf step ctxErr backoffDelay req N
      0 none s0,
    rfl⟩

/-- If the always-failing loop still has at least `k + 2` iterations left and
the context is first observed cancelled during the delay that follows the
`k`-th further attempt, the loop makes exactly `k + 1` further invocations and
returns the context error. -/
theorem retryLoop_cancelled (Req Resp Err σ : Type) (errOf : σ → Err)
    (step : σ → σ) (ctxErr : Err) (done : Nat → Bool)
    (backoffDelay : Nat → Nat) (req : Req) (k : Nat) :
    ∀ (r a : Nat) (lastErr : Option Err) (s : σ), k + 1 < r →
    (∀ j, j < k → done (a + j) = false) → done (a + k) = true →
    retryLoop (alwaysFails errOf step : Req → σ → GoResult Resp Err × σ)
        done ctxErr backoffDelay req r a lastErr s =
      ((none, some ctxErr), step^[k + 1] s) := by
  induction k with
  | zero =>
      intro r a lastErr s hr _ hk
      obtain ⟨r1, rfl⟩ : ∃ r1, r = r1 + 1 := ⟨r - 1, by omega⟩
      have hr1 : 0 < r1 := by omega
      have hk0 : done a = true := by simpa using hk
      rw [retryLoop]
      simp [alwaysFails, hr1, hk0]
  | succ k ih =>
      intro r a lastErr s hr hbefore hk
      obtain ⟨r1, rfl⟩ : ∃ r1, r = r1 + 1 := ⟨r - 1, by omega⟩
      have hr1 : 0 < r1 := by omega
      have h0 : done a = false := by
        simpa using hbefore 0 (Nat.zero_lt_succ k)
      rw [retryLoop]
      simp only [alwaysFails, hr1, if_true, h0, Bool.false_eq_true, if_false]
      rw [ih r1 (a + 1) (some (errOf s)) (step s) (by omega)
        (fun j hj => by
          have hj1 := hbefore (j + 1) (Nat.succ_lt_succ hj)
          have hadd : a + 1 + j = a + (j + 1) := by omega
          rw [hadd]
          exact hj1)
        (by
          have hadd : a + 1 + k = a + (k + 1) := by omega
          rw [hadd]
          exact hk)]
      have h1 : step^[k + 1 + 1] s = step^[k + 1] (step s) :=
        Function.iterate_succ_apply step (k + 1) s
      rw [h1]

/-- C5: if the request context is cancelled during a retry inter-attempt
delay — unobserved through the delays after attempts 0 .. k-1 and observed
during the delay after attempt k, with k below `maxRetries` so that a delay
does follow attempt k — the retry handler makes exactly k + 1 invocations of
the always-failing inner handler, abandons all remaining retries, and returns
the context's cancellation error `ctxErr` instead of the last attempt's own
failure error. -/
theorem retry_cancellation_aborts (Req Resp Err σ : Type) (N k : Nat)
    (backoffDelay : Nat → Nat) (ctxErr : Err) (done : Nat → Bool)
    (errOf : σ → Err) (step : σ → σ) (req : Req) (s0 : σ)
    (hk : k < N) (hdone : done k = true)
    (hbefore : ∀ a, a < k → done a = false) :
    RetryMiddleware N backoffDelay done ctxErr
        (alwaysFails errOf step : Req → σ → GoResult Resp Err × σ) req s0 =
      ((none, some ctxErr), step^[k + 1] s0) := by
  have h := retryLoop_cancelled Req Resp Err σ errOf step ctxErr done
    backoffDelay req k (N + 1) 0 none s0 (by omega)
    (fun j hj => by simpa using hbefore j hj) (by simpa using hdone)
  exact h

/-- Writing one slot preserves the length of the results slice. -/
theorem writeSlot_length (Opt Resp Err : Type)
    (exec : ConcurrentRequest Opt → GoResult Resp Err)
    (requests : List (ConcurrentRequest Opt))
    (results : List (ConcurrentResponse Resp Err)) (i : Nat) :
    (writeSlot exec requests results i).length = results.length := by
  unfold writeSlot
  cases requests[i]? <;> simp

/-- One slot write is index-addressed: it changes slot `j` to the outcome of
request `j` and leaves every other slot untouched. -/
theorem writeSlot_getElem (Opt Resp Err : Type)
    (exec : ConcurrentRequest Opt → GoResult Resp Err)
    (requests : List (ConcurrentRequest Opt))
    (acc : List (ConcurrentResponse Resp Err))
    (hlen : acc.length = requests.length) (j i : Nat) :
    (writeSlot exec requests acc j)[i]? =
      if i = j then
        match requests[i]? with
        | some req => some (concurrentResult exec i req)
        | none => acc[i]?
      else acc[i]? := by
  by_cases hij : i = j
  · subst hij
    unfold writeSlot
    cases hreq : requests[i]? with
    | none => simp
    | some req =>
        have hi : i < acc.length := by
          rw [hlen]
          by_contra hge
          rw [List.getElem?_eq_none (Nat.le_of_not_lt hge)] at hreq
          exact Option.noConfusion hreq
        simp [List.getElem?_set_self hi]
  · unfold writeSlot
    cases requests[j]? with
    | none => simp [hij]
    | some req =>
        rw [List.getElem?_set_ne (fun hc => hij hc.symm)]
        simp [hij]

/-- After any schedule of slot writes, slot `i` holds the outcome of request
`i` when index `i` completed during the schedule, and its prior content
otherwise. -/
theorem foldl_writeSlot_getElem (Opt Resp Err : Type)
    (exec : ConcurrentRequest Opt → GoResult Resp Err)
    (requests : List (ConcurrentRequest Opt)) (order : List Nat) :
    ∀ (acc : List (ConcurrentResponse Resp Err)),
      acc.length = requests.length → ∀ i,
    (order.foldl (writeSlot exec requests) acc)[i]? =
      if i ∈ order then
        match requests[i]? with
        | some req => some (concurrentResult exec i req)
        | none => acc[i]?
      else acc[i]? := by
  induction order with
  | nil =>
      intro acc _ i
      simp
  | cons j rest ih =>
      intro acc hlen i
      show (rest.foldl (writeSlot exec requests)
        (writeSlot exec requests acc j))[i]? = _
      rw [ih (writeSlot exec requests acc j)
        ((writeSlot_length Opt Resp Err exec requests acc j).trans hlen) i]
      rw [writeSlot_getElem Opt Resp Err exec requests acc hlen j i]
      cases hreq : requests[i]? with
      | none =>
          by_cases hij : i = j
          · subst hij
            by_cases hmem : i ∈ rest <;> simp [hreq, hmem, List.mem_cons]
          · by_cases hmem : i ∈ rest <;>
              simp [hreq, hmem, hij, List.mem_cons]
      | some req =>
          by_cases hij : i = j
          · subst hij
            by_cases hmem : i ∈ rest <;> simp [hreq, hmem, List.mem_cons]
          · by_cases hmem : i ∈ rest <;>
              simp [hreq, hmem, hij, List.mem_cons]

/-- Any schedule of slot writes preserves the results length: there are
always exactly `len(requests)` result slots. -/
theorem sendConcurrentSched_length (Opt Resp Err : Type)
    (exec : ConcurrentRequest Opt → GoResult Resp Err)
    (requests : List (ConcurrentRequest Opt)) (ord : List Nat) :
    (SendConcurrentSched exec requests ord).length = requests.length := by
  unfold SendConcurrentSched
  have h : ∀ (os : List Nat) (acc : List (ConcurrentResponse Resp Err)),
      (os.foldl (writeSlot exec requests) acc).length = acc.length := by
    intro os
    induction os with
    | nil => intro acc; rfl
    | cons o os ih =>
        intro acc
        show (os.foldl (writeSlot exec requests)
          (writeSlot exec requests acc o)).length = _
        rw [ih, writeSlot_length]
  rw [h, List.length_replicate]

/-- Under any schedule in which every valid index completes (and only valid
indices appear), slot `i` holds exactly the outcome of request `i`. -/
theorem sendConcurrentSched_getElem (Opt Resp Err : Type)
    (exec : ConcurrentRequest Opt → GoResult Resp Err)
    (requests : List (ConcurrentRequest Opt)) (ord : List Nat)
    (hm : ∀ i, i ∈ ord ↔ i < requests.length) (i : Nat) :
    (SendConcurrentSched exec requests ord)[i]? =
      (requests[i]?).map (concurrentResult exec i) := by
  unfold SendConcurrentSched
  rw [foldl_writeSlot_getElem Opt Resp Err exec requests ord _
    (List.length_replicate _ _) i]
  by_cases hi : i < requests.length
  · cases hreq : requests[i]? with
    | none =>
        rw [List.getElem?_eq_getElem hi] at hreq
        simp at hreq
    | some req => simp [(hm i).mpr hi, hreq]
  · have hnone : requests[i]? = none :=
      List.getElem?_eq_none (Nat.le_of_not_lt hi)
    have hnmem : ¬ i ∈ ord := fun hc => hi ((hm i).mp hc)
    simp [hnmem, hnone, List.getElem?_replicate, hi]

/-- C8: for every completion order of the `N` goroutines — any permutation of
the indices `0 .. N-1` — `SendConcurrent` yields exactly `N` results, the
result in slot `i` is the outcome of executing the `i`-th input request
(`Index i` with that execution's response and error, whether success or
failure — each write touches only its own disjoint slot, so no sibling's
failure can cancel, abort or corrupt it), and the whole result list is
independent of the completion order. -/
theorem sendConcurrent_index_correlation (Opt Resp Err : Type)
    (exec : ConcurrentRequest Opt → GoResult Resp Err)
    (requests : List (ConcurrentRequest Opt)) (order : List Nat)
    (hperm : order.Perm (List.range requests.length)) :
    (SendConcurrentSched exec requests order).length = requests.length ∧
    (∀ i, (SendConcurrentSched exec requests order)[i]? =
      (requests[i]?).map (concurrentResult exec i)) ∧
    SendConcurrentSched exec requests order = SendConcurrent exec requests := by
  have hmem : ∀ i, i ∈ order ↔ i < requests.length := fun i =>
    (hperm.mem_iff).trans List.mem_range
  refine ⟨sendConcurrentSched_length Opt Resp Err exec requests order,
    sendConcurrentSched_getElem Opt Resp Err exec requests order hmem, ?_⟩
  apply List.ext_getElem?
  intro n
  rw [sendConcurrentSched_getElem Opt Resp Err exec requests order hmem n]
  unfold SendConcurrent
  rw [sendConcurrentSched_getElem Opt Resp Err exec requests
    (List.range requests.length) (fun i => List.mem_range) n]

/-- Witness for the index-correlation theorem: two requests completing in
reverse order still produce results correlated to their input indices, and
the same list as completion in index order. -/
theorem sendConcurrent_index_correlation_witness :
    (SendConcurrentSched sampleExec sampleRequests [1, 0]).length =
      sampleRequests.length ∧
    (∀ i, (SendConcurrentSched sampleExec sampleRequests [1, 0])[i]? =
      (sampleRequests[i]?).map (concurrentResult sampleExec i)) ∧
    SendConcurrentSched sampleExec sampleRequests [1, 0] =
      SendConcurrent sampleExec sampleRequests :=
  sendConcurrent_index_correlation Unit String String sampleExec
    sampleRequests [1, 0] (by decide)

/-- An index with an element is in range. -/
theorem getElem?_some_lt_length {α : Type} (l : List α) (i : Nat) (a : α)
    (h : l[i]? = some a) : i < l.length := by
  by_contra hge
  rw [List.getElem?_eq_none (Nat.le_of_not_lt hge)] at h
  exact Option.noConfusion h

/-- Acquiring a semaphore slot raises the occupancy by exactly one. -/
theorem countRunning_set_acquire (status : List WorkerStatus) (i : Nat)
    (h : status[i]? = some WorkerStatus.idle) :
    countRunning (status.set i WorkerStatus.running) =
      countRunning status + 1 := by
  have hi : i < status.length := getElem?_some_lt_length status i _ h
  have hget : status[i] = WorkerStatus.idle := by
    rw [List.getElem?_eq_getElem hi] at h
    exact Option.some.inj h
  unfold countRunning
  rw [List.count_set WorkerStatus.running WorkerStatus.running status i hi,
    hget]
  simp

/-- Releasing a semaphore slot lowers the occupancy by exactly one. -/
theorem countRunning_set_finish (status : List WorkerStatus) (i : Nat)
    (h : status[i]? = some WorkerStatus.running) :
    countRunning (status.set i WorkerStatus.done) =
      countRunning status - 1 := by
  have hi : i < status.length := getElem?_some_lt_length status i _ h
  have hget : status[i] = WorkerStatus.running := by
    rw [List.getElem?_eq_getElem hi] at h
    exact Option.some.inj h
  unfold countRunning
  rw [List.count_set WorkerStatus.done WorkerStatus.running status i hi, hget]
  simp

/-- A worker holding a slot keeps the occupancy positive. -/
theorem countRunning_pos (status : List WorkerStatus) (i : Nat)
    (h : status[i]? = some WorkerStatus.running) : 0 < countRunning status :=
  List.count_pos_iff.mpr (List.getElem?_mem h)

/-- Each scheduler step of `SendConcurrentWithLimit` preserves the
invariant. -/
theorem limitInv_step (Opt Resp Err : Type)
    (exec : ConcurrentRequest Opt → GoResult Resp Err)
    (requests : List (ConcurrentRequest Opt)) (limit : Nat)
    (s s2 : LimitState Resp Err) (hinv : LimitInv exec requests limit s)
    (hstep : LimitStep exec requests limit s s2) :
    LimitInv exec requests limit s2 := by
  obtain ⟨hslen, hrlen, hcount, hdone⟩ := hinv
  cases hstep with
  | acquire i hidle hcap =>
      refine ⟨by simp [hslen], hrlen, ?_, ?_⟩
      · rw [countRunning_set_acquire s.status i hidle]
        omega
      · intro j hj
        by_cases hij : i = j
        · subst hij
          have hi : i < s.status.length :=
            getElem?_some_lt_length s.status i _ hidle
          rw [List.getElem?_set_self hi] at hj
          exact absurd (Option.some.inj hj) (by decide)
        · rw [List.getElem?_set_ne hij] at hj
          exact hdone j hj
  | finish i hrun req hreq =>
      have hi : i < s.status.length := getElem?_some_lt_length s.status i _ hrun
      have hir : i < s.results.length := by
        rw [hrlen]
        exact getElem?_some_lt_length requests i req hreq
      refine ⟨by simp [hslen], by simp [hrlen], ?_, ?_⟩
      · rw [countRunning_set_finish s.status i hrun]
        omega
      · intro j hj
        by_cases hij : i = j
        · subst hij
          rw [List.getElem?_set_self hir, hreq]
          rfl
        · rw [List.getElem?_set_ne hij] at hj
          rw [List.getElem?_set_ne hij]
          exact hdone j hj

/-- Every reachable state of `SendConcurrentWithLimit` satisfies the
invariant. -/
theorem limitInv_of_reachable (Opt Resp Err : Type)
    (exec : ConcurrentRequest Opt → GoResult Resp Err)
    (requests : List (ConcurrentRequest Opt)) (limit : Nat)
    (s : LimitState Resp Err) (h : LimitReachable exec requests limit s) :
    LimitInv exec requests limit s := by
  unfold LimitReachable at h
  induction h with
  | refl =>
      refine ⟨by simp [initLimitState], by simp [initLimitState], ?_, ?_⟩
      · unfold countRunning initLimitState
        simp [List.count_replicate]
      · intro i hi
        rw [show (initLimitState Resp Err requests.length).status =
          List.replicate requests.length WorkerStatus.idle from rfl,
          List.getElem?_replicate] at hi
        by_cases hlt : i < requests.length <;> simp [hlt] at hi
  | tail hsteps hstep ih =>
      exact limitInv_step Opt Resp Err exec requests limit _ _ ih hstep

/-- C9: in every reachable state of `SendConcurrentWithLimit(requests,
limit)`, at most `limit` workers are past the admission gate (the semaphore
occupancy never exceeds `limit`); every worker holding a slot can complete in
one step that marks it done, releases its semaphore slot (occupancy drops by
one) and stores its own request's outcome — whether response or error — in
its own result slot; and every terminal state (all workers done) carries
exactly the index-correlated result list that `SendConcurrent` produces. -/
theorem sendConcurrentWithLimit_bounded (Opt Resp Err : Type)
    (exec : ConcurrentRequest Opt → GoResult Resp Err)
    (requests : List (ConcurrentRequest Opt)) (limit : Nat)
    (s : LimitState Resp Err)
    (hreach : LimitReachable exec requests limit s) :
    countRunning s.status ≤ limit ∧
    s.results.length = requests.length ∧
    (∀ i, s.status[i]? = some WorkerStatus.running →
      ∃ s2, LimitStep exec requests limit s s2 ∧
        s2.status[i]? = some WorkerStatus.done ∧
        countRunning s2.status + 1 = countRunning s.status ∧
        s2.results[i]? = (requests[i]?).map (concurrentResult exec i)) ∧
    ((∀ i, i < requests.length → s.status[i]? = some WorkerStatus.done) →
      s.results = SendConcurrent exec requests) := by
  obtain ⟨hslen, hrlen, hcount, hdone⟩ :=
    limitInv_of_reachable Opt Resp Err exec requests limit s hreach
  refine ⟨hcount, hrlen, ?_, ?_⟩
  · intro i hrun
    have hi : i < s.status.length := getElem?_some_lt_length s.status i _ hrun
    have hireq : i < requests.length := by
      rw [← hslen]
      exact hi
    have hir : i < s.results.length := by
      rw [hrlen]
      exact hireq
    have hreq : requests[i]? = some requests[i] :=
      List.getElem?_eq_getElem hireq
    refine ⟨_, LimitStep.finish s i hrun requests[i] hreq, ?_, ?_, ?_⟩
    · exact List.getElem?_set_self hi
    · rw [countRunning_set_finish s.status i hrun]
      have hpos := countRunning_pos s.status i hrun
      omega
    · rw [List.getElem?_set_self hir, hreq]
      rfl
  · intro hall
    apply List.ext_getElem?
    intro n
    by_cases hlt : n < requests.length
    · rw [hdone n (hall n hlt)]
      unfold SendConcurrent
      rw [sendConcurrentSched_getElem Opt Resp Err exec requests
        (List.range requests.length) (fun i => List.mem_range) n]
    · have h1 : s.results[n]? = none := by
        apply List.getElem?_eq_none
        rw [hrlen]
        exact Nat.le_of_not_lt hlt
      have h2 : (SendConcurrent exec requests)[n]? = none := by
        apply List.getElem?_eq_none
        rw [show (SendConcurrent exec requests).length = requests.length from
          sendConcurrentSched_length Opt Resp Err exec requests _]
        exact Nat.le_of_not_lt hlt
      rw [h1, h2]

/-- Witness for the bounded fan-out theorem at a concrete reachable state:
the sample batch with limit 1, after the first worker acquired the slot. -/
theorem sendConcurrentWithLimit_bounded_witness :
    countRunning ((initLimitState String String
        sampleRequests.length).status.set 0 WorkerStatus.running) ≤ 1 ∧
    ((initLimitState String String sampleRequests.length).results).length =
      sampleRequests.length ∧
    (∀ i, (((initLimitState String String
          sampleRequests.length).status.set 0
          WorkerStatus.running) : List WorkerStatus)[i]? =
        some WorkerStatus.running →
      ∃ s2, LimitStep sampleExec sampleRequests 1
          { status := (initLimitState String String
              sampleRequests.length).status.set 0 WorkerStatus.running,
            results := (initLimitState String String
              sampleRequests.length).results } s2 ∧
        s2.status[i]? = some WorkerStatus.done ∧
        countRunning s2.status + 1 =
          countRunning ((initLimitState String String
            sampleRequests.length).status.set 0 WorkerStatus.running) ∧
        s2.results[i]? =
          (sampleRequests[i]?).map (concurrentResult sampleExec i)) ∧
    ((∀ i, i < sampleRequests.length →
        (((initLimitState String String
            sampleRequests.length).status.set 0
            WorkerStatus.running) : List WorkerStatus)[i]? =
          some WorkerStatus.done) →
      (initLimitState String String sampleRequests.length).results =
        SendConcurrent sampleExec sampleRequests) := by
  have hstep : LimitStep sampleExec sampleRequests 1
      (initLimitState String String sampleRequests.length)
      { status := (initLimitState String String
          sampleRequests.length).status.set 0 WorkerStatus.running,
        results := (initLimitState String String
          sampleRequests.length).results } :=
    LimitStep.acquire (initLimitState String String sampleRequests.length) 0
      (by decide) (by decide)
  have h := sendConcurrentWithLimit_bounded Unit String String sampleExec
    sampleRequests 1
    { status := (initLimitState String String
        sampleRequests.length).status.set 0 WorkerStatus.running,
      results := (initLimitState String String
        sampleRequests.length).results }
    (Relation.ReflTransGen.single hstep)
  exact h

/-- C10: for every client configuration, collaborator functions, method and
path, `Client.Request` called with a nil `options` pointer behaves exactly as
when called with a freshly constructed zero-value `RequestOptions` — the
guard replaces the nil pointer before any field access — and the same holds
through each of `Get`, `Post`, `Put`, `Delete` and `Patch`. -/
theorem request_nil_options_safe (Json Resp Err : Type) (c : Client)
    (marshal : Json → Except Err String)
    (multipartToReader : MultipartData → Except Err (String × String))
    (send : OutgoingRequest → GoResult Resp Err) (method path : String) :
    c.Request marshal multipartToReader send method path none =
      c.Request marshal multipartToReader send method path
        (some (emptyRequestOptions Json)) ∧
    c.Get marshal multipartToReader send path none =
      c.Get marshal multipartToReader send path
        (some (emptyRequestOptions Json)) ∧
    c.Post marshal multipartToReader send path none =
      c.Post marshal multipartToReader send path
        (some (emptyRequestOptions Json)) ∧
    c.Put marshal multipartToReader send path none =
      c.Put marshal multipartToReader send path
        (some (emptyRequestOptions Json)) ∧
    c.Delete marshal multipartToReader send path none =
      c.Delete marshal multipartToReader send path
        (some (emptyRequestOptions Json)) ∧
    c.Patch marshal multipartToReader send path none =
      c.Patch marshal multipartToReader send path
        (some (emptyRequestOptions Json)) :=
  ⟨rfl, rfl, rfl, rfl, rfl, rfl⟩

/-- Witness for the cancellation theorem: maxRetries 3, counting inner
handler, context first observed cancelled during the delay after attempt 1 —
the handler runs exactly twice and the context error "ctx" is returned. -/
theorem retry_cancellation_aborts_witness :
    RetryMiddleware 3 (fun _ => 0) (fun a => a == 1) "ctx"
        (alwaysFails (fun n => toString n) (· + 1) :
          Unit → Nat → GoResult Unit String × Nat) () 0 =
      ((none, some "ctx"), 2) := by
  have h := retry_cancellation_aborts Unit Unit String Nat 3 1 (fun _ => 0)
    "ctx" (fun a => a == 1) (fun n => toString n) (· + 1) () 0
    (by decide) (by decide) (by decide)
  simpa using h

end GoRequestClient
